import Mathlib

/-!
Verification of the `agentkit` remote sandbox filesystem backend
(`adk/backend/agentkit/sandbox.go`, `code_template.go`) of the eino-ext
repository, as a shallow embedding in Lean 4.

Go strings are modelled as Lean `String`, Go `int` as `Int`, byte slices as
`List Nat` (each element < 256), pointers-to-int as `Option Int`, and Go's
`(value, error)` returns as `Except String value`.  Functions that perform
I/O (the HTTP round trip, the remote Python execution) are cut at their
boundary: the pure pre-flight part (validation, parameter construction,
script-template parameter maps) and the pure post-processing part (response
envelope interpretation, line-by-line JSON decoding loops) are embedded, and
the remote side's script behaviour is embedded from the Python templates in
`code_template.go`.
-/

namespace Agentkit

/-! ## Response envelope (sandbox.go: `response`, `result`, `output`) -/

/-- One element of `data.outputs` in the inner result envelope
(Go struct `output` in the agentkit package). -/
structure Output where
  outputType : String
  text : String
  ename : String
  evalue : String
deriving Repr, DecidableEq

/-- `data` of the inner result envelope (Go struct `result.Data`). -/
structure ResultData where
  outputs : List Output
deriving Repr, DecidableEq

/-- The inner result envelope (Go struct `result`): `{success, data}`. -/
structure ResultEnvelope where
  data : ResultData
  success : Bool
deriving Repr, DecidableEq

/-- The interpretation step of `sandboxToolBackend.execute` after both JSON
layers decoded successfully (sandbox.go lines 455-473): synthesizes the
`(text, exitCode)` pair from the inner envelope.  The Go named return `text`
starts as the empty string and is only assigned under the conditions shown. -/
def interpretResult (ret : ResultEnvelope) : String × Int :=
  if !ret.success then
    let text :=
      match ret.data.outputs with
      | [] => ""
      | firstOutput :: _ =>
        if firstOutput.text ≠ "" then firstOutput.text
        else if firstOutput.ename ≠ "" then
          firstOutput.ename ++ ": " ++ firstOutput.evalue
        else ""
    (text, -1)
  else
    let text :=
      match ret.data.outputs with
      | [] => ""
      | firstOutput :: _ => firstOutput.text
    (text, 0)

/-- `execute` after the transport/decode stage: a decode failure propagates as
an error carrying no exit code; a successful decode always yields the
synthesized `(text, exitCode)` pair. -/
def executeFromDecoded (decoded : Except String ResultEnvelope) :
    Except String (String × Int) :=
  match decoded with
  | .error e => .error e
  | .ok ret => .ok (interpretResult ret)

/-- The claim's description of the envelope interpretation, written from the
spec's words: exit code 0 when `success` with text the first output's text
(empty when no outputs); exit code -1 when not `success`, with text the first
output's text if non-empty, else the composite "ename: evalue" when ename is
non-empty, else empty. -/
def specInterpretResult (ret : ResultEnvelope) : String × Int :=
  if ret.success then
    (match ret.data.outputs with
     | [] => ""
     | o :: _ => o.text, 0)
  else
    (match ret.data.outputs with
     | [] => ""
     | o :: _ =>
       if o.text ≠ "" then o.text
       else if o.ename ≠ "" then o.ename ++ ": " ++ o.evalue
       else "", -1)

/-! ## Configuration and construction (sandbox.go: `Config`,
`NewSandboxToolBackend`) -/

/-- Region strings (sandbox.go constants `RegionOfBeijing`, `RegionOfShangHai`). -/
def RegionOfBeijing : String := "cn-beijing"

/-- The Shanghai region constant. -/
def RegionOfShangHai : String := "cn-shanghai"

/-- Base URL for the Beijing region. -/
def regionOfBeijingBaseURL : String := "https://agentkit.cn-beijing.volces.com"

/-- Base URL for the Shanghai region. -/
def regionOfShangHaiBaseURL : String := "https://agentkit.cn-shanghai.volces.com"

/-- The `Config` struct for the sandbox backend (sandbox.go).  The optional
`HTTPClient` field is I/O plumbing with no effect on validation and is not
modelled. -/
structure Config where
  AccessKeyID : String
  SecretAccessKey : String
  Region : String
  ToolID : String
  SessionID : String
  UserSessionID : String
  SessionTTL : Int
  ExecutionTimeout : Int
deriving Repr, DecidableEq

/-- The constructed backend value (Go struct `sandboxToolBackend`), minus the
HTTP client. -/
structure SandboxToolBackend where
  secretAccessKey : String
  accessKeyID : String
  baseURL : String
  region : String
  toolID : String
  userSessionID : String
  sessionID : String
  sessionTTL : Int
  executionTimeout : Int
deriving Repr, DecidableEq

/-- `NewSandboxToolBackend` (sandbox.go lines 127-174): eager validation of
credentials, tool ID, session identity and region, then construction. -/
def NewSandboxToolBackend (config : Config) : Except String SandboxToolBackend :=
  if config.AccessKeyID = "" then
    .error "AccessKeyID is required"
  else if config.SecretAccessKey = "" then
    .error "SecretAccessKey is required"
  else if config.ToolID = "" then
    .error "ToolID is required"
  else if config.SessionID = "" ∧ config.UserSessionID = "" then
    .error "SessionID or UserSessionID is required, at least one must be provided"
  else
    let region := if config.Region = "" then RegionOfBeijing else config.Region
    if region = RegionOfBeijing then
      .ok { accessKeyID := config.AccessKeyID
            secretAccessKey := config.SecretAccessKey
            region := region
            baseURL := regionOfBeijingBaseURL
            toolID := config.ToolID
            sessionID := config.SessionID
            userSessionID := config.UserSessionID
            sessionTTL := config.SessionTTL
            executionTimeout := config.ExecutionTimeout }
    else if region = RegionOfShangHai then
      .ok { accessKeyID := config.AccessKeyID
            secretAccessKey := config.SecretAccessKey
            region := region
            baseURL := regionOfShangHaiBaseURL
            toolID := config.ToolID
            sessionID := config.SessionID
            userSessionID := config.UserSessionID
            sessionTTL := config.SessionTTL
            executionTimeout := config.ExecutionTimeout }
    else
      .error ("invalid region: " ++ region)

/-! ## `execute` request construction (sandbox.go lines 404-438) -/

/-- The key set of the marshalled `OperationPayload` JSON object.  `execute`
marshals `{code, kernelName}` when `executionTimeout <= 0` and
`{code, timeout, kernelName}` otherwise; a Go `map[string]any` marshals
exactly its present keys. -/
def operationPayloadKeys (executionTimeout : Int) : List String :=
  if executionTimeout ≤ 0 then ["code", "kernelName"]
  else ["code", "timeout", "kernelName"]

/-- The outer `invokeToolRequest` (examples/middlewares types file): `Ttl` is a
`*int`, nil unless assigned. -/
structure InvokeToolRequest where
  ToolID : String
  SessionID : String
  UserSessionID : String
  OperationPayload : String
  OperationType : String
  Ttl : Option Int
deriving Repr, DecidableEq

/-- The request-building step of `execute` (sandbox.go lines 423-433): the
`Ttl` pointer is assigned only when `sessionTTL > 0`. -/
def buildInvokeToolRequest (s : SandboxToolBackend) (operationPayload : String) :
    InvokeToolRequest :=
  let req : InvokeToolRequest :=
    { ToolID := s.toolID
      SessionID := s.sessionID
      UserSessionID := s.userSessionID
      OperationPayload := operationPayload
      OperationType := "RunCode"
      Ttl := none }
  if s.sessionTTL > 0 then { req with Ttl := some s.sessionTTL } else req

/-! ## Path handling (sandbox.go: `formatPath`; Go stdlib `path/filepath`
`Clean` and `IsAbs` on Unix, embedded from their documented lexical rules:
collapse multiple separators, drop `.` elements, resolve inner `..`, drop
`..` elements that begin a rooted path; `IsAbs` is a leading slash) -/

/-- Split a character list on `/`, keeping empty segments (like Go's
`strings.Split` on "/"); always returns a non-empty list. -/
def splitSlash : List Char → List (List Char)
  | [] => [[]]
  | c :: rest =>
    if c = '/' then [] :: splitSlash rest
    else
      match splitSlash rest with
      | [] => [[c]]
      | h :: t => (c :: h) :: t

/-- One step of the lexical path-cleaning stack: skip empty and `.` segments,
resolve `..` against the stack (when `rooted`, a `..` with nothing to pop is
dropped; otherwise it is kept), push any other segment. -/
def cleanStep (rooted : Bool) (stack : List (List Char)) (comp : List Char) :
    List (List Char) :=
  if comp = [] ∨ comp = ['.'] then stack
  else if comp = ['.', '.'] then
    if rooted then stack.dropLast
    else if stack ≠ [] ∧ stack.getLast? ≠ some ['.', '.'] then stack.dropLast
    else stack ++ [comp]
  else stack ++ [comp]

/-- Join path components with `/`. -/
def joinSlash : List (List Char) → List Char
  | [] => []
  | [c] => c
  | c :: rest => c ++ '/' :: joinSlash rest

/-- Go `filepath.Clean` for Unix paths, on character lists. -/
def cleanChars (l : List Char) : List Char :=
  if l = [] then ['.']
  else
    let rooted : Bool := l.head? = some '/'
    let stack := (splitSlash l).foldl (cleanStep rooted) []
    if rooted then '/' :: joinSlash stack
    else if stack = [] then ['.']
    else joinSlash stack

/-- Go `filepath.Clean` on strings. -/
def filepathClean (path : String) : String :=
  ⟨cleanChars path.data⟩

/-- Go `filepath.IsAbs` for Unix: the path starts with `/`. -/
def filepathIsAbs (path : String) : Bool :=
  path.data.head? = some '/'

/-- `formatPath` (sandbox.go lines 614-623): substitute the default for an
empty path, clean, and optionally require the result to be absolute. -/
def formatPath (path defaultPath : String) (requireAbs : Bool) :
    Except String String :=
  let path := if path = "" ∧ defaultPath ≠ "" then defaultPath else path
  let path := filepathClean path
  if requireAbs ∧ ¬filepathIsAbs path then
    .error ("path must be an absolute path: " ++ path)
  else
    .ok path

/-! ## UTF-8 bytes and base64 (Go `[]byte(string)` conversion and
`base64.StdEncoding.EncodeToString`) -/

/-- UTF-8 encoding of one character (code point), as byte values. -/
def utf8EncodeChar (c : Char) : List Nat :=
  let n := c.toNat
  if n < 0x80 then [n]
  else if n < 0x800 then
    [0xC0 + n / 64, 0x80 + n % 64]
  else if n < 0x10000 then
    [0xE0 + n / 4096, 0x80 + n / 64 % 64, 0x80 + n % 64]
  else
    [0xF0 + n / 262144, 0x80 + n / 4096 % 64, 0x80 + n / 64 % 64, 0x80 + n % 64]

/-- The byte content of a Go string (Go strings are UTF-8). -/
def utf8Bytes (s : String) : List Nat :=
  s.data.flatMap utf8EncodeChar

/-- The standard base64 alphabet. -/
def b64Alpha : List Char :=
  ("ABCDEFGHIJKLMNOPQRSTUVWXYZabcdefghijklmnopqrstuvwxyz0123456789+/").data

/-- The standard base64 digit for a 6-bit value. -/
def b64Char (n : Nat) : Char :=
  b64Alpha.getD n '='

/-- Standard base64 with padding, over byte values (Go
`base64.StdEncoding.EncodeToString`). -/
def b64encodeBytes : List Nat → List Char
  | [] => []
  | [a] =>
    [b64Char (a / 4), b64Char (a % 4 * 16), '=', '=']
  | [a, b] =>
    [b64Char (a / 4), b64Char (a % 4 * 16 + b / 16), b64Char (b % 16 * 4), '=']
  | a :: b :: c :: rest =>
    b64Char (a / 4) :: b64Char (a % 4 * 16 + b / 16) ::
    b64Char (b % 16 * 4 + c / 64) :: b64Char (c % 64) :: b64encodeBytes rest

/-- `base64.StdEncoding.EncodeToString([]byte(s))` for a Go string `s`. -/
def b64encode (s : String) : String :=
  ⟨b64encodeBytes (utf8Bytes s)⟩

/-- The 6-bit value of a base64 digit, `none` for characters outside the
alphabet (Python `base64.b64decode` side of the protocol). -/
def b64Val (c : Char) : Option Nat :=
  let i := b64Alpha.indexOf c
  if i < 64 then some i else none

/-- Base64 decoding to byte values (the `base64.b64decode` the generated
scripts apply to `_b64` parameters). -/
def b64decodeList : List Char → Option (List Nat)
  | [] => some []
  | c1 :: c2 :: c3 :: c4 :: rest =>
    match b64Val c1, b64Val c2 with
    | some v1, some v2 =>
      if c3 = '=' then
        if c4 = '=' ∧ rest = [] then some [v1 * 4 + v2 / 16] else none
      else
        match b64Val c3 with
        | some v3 =>
          if c4 = '=' then
            if rest = [] then some [v1 * 4 + v2 / 16, v2 % 16 * 16 + v3 / 4]
            else none
          else
            match b64Val c4, b64decodeList rest with
            | some v4, some bs =>
              some ([v1 * 4 + v2 / 16, v2 % 16 * 16 + v3 / 4, v3 % 4 * 64 + v4] ++ bs)
            | _, _ => none
        | none => none
    | _, _ => none
  | _ => none

/-! ## Filesystem-operation façade: pre-flight stage
(sandbox.go: LsInfo / Read / GrepRaw / GlobInfo / Write / Edit / Execute,
embedded up to the `s.execute(ctx, script)` call)

Each operation validates its input, then builds the `params` map handed to
the template renderer (`pyfmt.Fmt`).  The embedding returns that map: an
`Except.error` means the operation returned before rendering a script, so no
remote call was made.  Request structs mirror the fields the code reads from
the external `filesystem` package. -/

/-- A value in a script-template parameter map (Go `map[string]any` holding
strings and ints). -/
inductive PVal where
  | str (s : String)
  | int (i : Int)
deriving Repr, DecidableEq

/-- Request for `LsInfo`. -/
structure LsInfoRequest where
  Path : String
deriving Repr, DecidableEq

/-- Request for `Read`. -/
structure ReadRequest where
  FilePath : String
  Offset : Int
  Limit : Int
deriving Repr, DecidableEq

/-- Request for `GrepRaw`. -/
structure GrepRequest where
  Pattern : String
  Path : String
  Glob : String
deriving Repr, DecidableEq

/-- Request for `GlobInfo`. -/
structure GlobInfoRequest where
  Path : String
  Pattern : String
deriving Repr, DecidableEq

/-- Request for `Write`. -/
structure WriteRequest where
  FilePath : String
  Content : String
deriving Repr, DecidableEq

/-- Request for `Edit`. -/
structure EditRequest where
  FilePath : String
  OldString : String
  NewString : String
  ReplaceAll : Bool
deriving Repr, DecidableEq

/-- Request for `Execute`. -/
structure ExecuteRequest where
  Command : String
deriving Repr, DecidableEq

/-- `LsInfo` pre-flight (sandbox.go lines 177-190): default path `/`,
absolute required, `params = {path}`. -/
def lsInfoPrepare (req : LsInfoRequest) : Except String (List (String × PVal)) :=
  (formatPath req.Path "/" true).map fun path => [("path", .str path)]

/-- `Read` pre-flight (sandbox.go lines 219-240).  The Go code mutates the
caller's request struct through the pointer when clamping `Offset` and
`Limit`; the second component is the caller-visible request after the call. -/
def readPrepare (req : ReadRequest) :
    Except String (List (String × PVal)) × ReadRequest :=
  match formatPath req.FilePath "" true with
  | .error e => (.error e, req)
  | .ok path =>
    let req := if req.Offset ≤ 0 then { req with Offset := 0 } else req
    let req := if req.Limit ≤ 0 then { req with Limit := 200 } else req
    (.ok [("file_path", .str path), ("offset", .int req.Offset),
          ("limit", .int req.Limit)], req)

/-- `GrepRaw` pre-flight (sandbox.go lines 254-265): the `formatPath` error is
discarded (`requireAbs` is false, so there is none) and the pattern, path and
glob are placed in the map raw. -/
def grepPrepare (req : GrepRequest) : List (String × PVal) :=
  let path := match formatPath req.Path "" false with
    | .ok p => p
    | .error _ => ""
  [("pattern", .str req.Pattern), ("path", .str path),
   ("glob_pattern", .str req.Glob)]

/-- `GlobInfo` pre-flight (sandbox.go lines 295-305): default path `/`, path
and pattern base64-encoded into the map. -/
def globInfoPrepare (req : GlobInfoRequest) : List (String × PVal) :=
  let path := match formatPath req.Path "/" false with
    | .ok p => p
    | .error _ => ""
  [("path_b64", .str (b64encode path)),
   ("pattern_b64", .str (b64encode req.Pattern))]

/-- `Write` pre-flight (sandbox.go lines 333-347): absolute path required,
content base64-encoded into the map. -/
def writePrepare (req : WriteRequest) : Except String (List (String × PVal)) :=
  (formatPath req.FilePath "" true).map fun path =>
    [("file_path", .str path), ("content_b64", .str (b64encode req.Content))]

/-- `Edit` pre-flight (sandbox.go lines 361-389): absolute path, then the two
local string checks, then the base64-encoded parameter map. -/
def editPrepare (req : EditRequest) : Except String (List (String × PVal)) :=
  match formatPath req.FilePath "" true with
  | .error e => .error e
  | .ok path =>
    if req.OldString = "" then
      .error "old string is required"
    else if req.OldString = req.NewString then
      .error "new string must be different from old string"
    else
      let replaceAll : Int := if req.ReplaceAll then 1 else 0
      .ok [("file_path", .str path),
           ("old_b64", .str (b64encode req.OldString)),
           ("new_b64", .str (b64encode req.NewString)),
           ("replace_all", .int replaceAll)]

/-- `Execute` pre-flight (sandbox.go lines 561-573): command required,
base64-encoded into the map. -/
def executePrepare (req : ExecuteRequest) : Except String (List (String × PVal)) :=
  if req.Command = "" then .error "command is required"
  else .ok [("command_b64", .str (b64encode req.Command))]

/-! ## Line-delimited JSON decoding loops
(sandbox.go: the result loops of LsInfo lines 200-215, GrepRaw lines 275-291,
GlobInfo lines 315-329)

The per-line `json.Unmarshal` into a record type is Go standard-library
behaviour external to the repository; the loops are embedded parameterized by
the per-line decoder `parse`, with `none` standing for an unmarshal error. -/

/-- `strings.TrimSpace` followed by `strings.Split(·, "\n")`, the line
splitting used by all three decoding loops (`String.trim` trims ASCII
whitespace where Go trims Unicode space; the claims quantify over the
resulting line list, so the difference is immaterial to them). -/
def splitOutputLines (output : String) : List String :=
  (output.trim).splitOn "\n"

/-- The LsInfo / GlobInfo decoding loop: empty output short-circuits to the
empty list; otherwise each line is decoded and lines that fail to decode are
skipped silently (`continue`). -/
def decodeJsonLines {α : Type} (parse : String → Option α) (output : String) :
    List α :=
  if output = "" then []
  else
    (splitOutputLines output).foldl
      (fun acc line =>
        match parse line with
        | none => acc
        | some v => acc ++ [v])
      []

/-- The GrepRaw decoding loop: like `decodeJsonLines`, but each line that
fails to decode is logged before being skipped; the second component collects
the logged lines. -/
def grepDecodeLines {α : Type} (parse : String → Option α) (output : String) :
    List α × List String :=
  if output = "" then ([], [])
  else
    (splitOutputLines output).foldl
      (fun acc line =>
        match parse line with
        | none => (acc.1, acc.2 ++ [line])
        | some v => (acc.1 ++ [v], acc.2))
      ([], [])

/-! ## The read script (code_template.go: `readPythonCodeTemplate`)

The script reads all lines (`f.readlines()`, each line carrying its trailing
newline except possibly the last), slices `lines[offset:offset+limit]`, and
prints each selected line as its 1-indexed line number (`offset + i + 1`)
with the line content stripped of trailing newlines (`line.rstrip('\n')`).
The missing-file and empty-file branches exit before this slicing. -/

/-- Python `line.rstrip('\n')`: remove all trailing newline characters. -/
def rstripNewline (s : String) : String :=
  ⟨(s.data.reverse.dropWhile (· = '\n')).reverse⟩

/-- The numbered-line output of the read script's slicing loop, as
(line number, stripped content) pairs.  Python `lines[offset:offset+limit]`
for non-negative `offset`/`limit` is drop-then-take. -/
def readScriptLines (lines : List String) (offset limit : Nat) :
    List (Nat × String) :=
  (((lines.drop offset).take limit).enum).map
    fun p => (offset + p.1 + 1, rstripNewline p.2)

/-! ## SHA-256, HMAC-SHA256 and request signing
(sandbox.go: `signRequest`, `hmacSHA256`, `getSignedKey`, `hashSHA256`)

`crypto/sha256` and `crypto/hmac` are Go standard library; they are embedded
here as FIPS 180-4 SHA-256 over byte lists (`Nat` values < 256, words as
`Nat` reduced mod 2^32) and the RFC 2104 HMAC construction that `crypto/hmac`
implements (block size 64). -/

/-- Addition modulo 2^32. -/
def add32 (a b : Nat) : Nat := (a + b) % 4294967296

/-- Right rotation of a 32-bit word. -/
def rotr32 (n x : Nat) : Nat :=
  (x / 2 ^ n + x % 2 ^ n * 2 ^ (32 - n)) % 4294967296

/-- SHA-256 round constants (FIPS 180-4, in decimal). -/
def k256 : List Nat :=
  [1116352408, 1899447441, 3049323471, 3921009573, 961987163, 1508970993,
   2453635748, 2870763221, 3624381080, 310598401, 607225278, 1426881987,
   1925078388, 2162078206, 2614888103, 3248222580, 3835390401, 4022224774,
   264347078, 604807628, 770255983, 1249150122, 1555081692, 1996064986,
   2554220882, 2821834349, 2952996808, 3210313671, 3336571891, 3584528711,
   113926993, 338241895, 666307205, 773529912, 1294757372, 1396182291,
   1695183700, 1986661051, 2177026350, 2456956037, 2730485921, 2820302411,
   3259730800, 3345764771, 3516065817, 3600352804, 4094571909, 275423344,
   430227734, 506948616, 659060556, 883997877, 958139571, 1322822218,
   1537002063, 1747873779, 1955562222, 2024104815, 2227730452, 2361852424,
   2428436474, 2756734187, 3204031479, 3329325298]

/-- SHA-256 initial hash state. -/
structure Sha256State where
  a : Nat
  b : Nat
  c : Nat
  d : Nat
  e : Nat
  f : Nat
  g : Nat
  h : Nat
deriving Repr, DecidableEq

/-- The SHA-256 initial hash value (FIPS 180-4, in decimal). -/
def sha256Init : Sha256State :=
  ⟨1779033703, 3144134277, 1013904242, 2773480762,
   1359893119, 2600822924, 528734635, 1541459225⟩

/-- Read a big-endian 32-bit word from four bytes of a block. -/
def be32At (block : List Nat) (i : Nat) : Nat :=
  block.getD (4 * i) 0 * 16777216 + block.getD (4 * i + 1) 0 * 65536 +
  block.getD (4 * i + 2) 0 * 256 + block.getD (4 * i + 3) 0

/-- The 64-word SHA-256 message schedule of one 64-byte block. -/
def msgSchedule (block : List Nat) : List Nat :=
  let w16 := (List.range 16).map fun i => be32At block i
  (List.range 48).foldl
    (fun w _ =>
      let n := w.length
      let s0 := rotr32 7 (w.getD (n - 15) 0) ^^^ rotr32 18 (w.getD (n - 15) 0) ^^^
        (w.getD (n - 15) 0) / 2 ^ 3
      let s1 := rotr32 17 (w.getD (n - 2) 0) ^^^ rotr32 19 (w.getD (n - 2) 0) ^^^
        (w.getD (n - 2) 0) / 2 ^ 10
      w ++ [add32 (add32 (w.getD (n - 16) 0) s0) (add32 (w.getD (n - 7) 0) s1)])
    w16

/-- One round of the SHA-256 compression function. -/
def sha256Round (st : Sha256State) (ki wi : Nat) : Sha256State :=
  let S1 := rotr32 6 st.e ^^^ rotr32 11 st.e ^^^ rotr32 25 st.e
  let ch := (st.e &&& st.f) ^^^ ((st.e ^^^ 4294967295) &&& st.g)
  let temp1 := add32 (add32 (add32 st.h S1) (add32 ch ki)) wi
  let S0 := rotr32 2 st.a ^^^ rotr32 13 st.a ^^^ rotr32 22 st.a
  let maj := (st.a &&& st.b) ^^^ (st.a &&& st.c) ^^^ (st.b &&& st.c)
  let temp2 := add32 S0 maj
  ⟨add32 temp1 temp2, st.a, st.b, st.c, add32 st.d temp1, st.e, st.f, st.g⟩

/-- Process one 64-byte block. -/
def sha256Block (st : Sha256State) (block : List Nat) : Sha256State :=
  let ws := msgSchedule block
  let r := (List.zip k256 ws).foldl (fun s p => sha256Round s p.1 p.2) st
  ⟨add32 st.a r.a, add32 st.b r.b, add32 st.c r.c, add32 st.d r.d,
   add32 st.e r.e, add32 st.f r.f, add32 st.g r.g, add32 st.h r.h⟩

/-- A natural number as `n` big-endian bytes. -/
def beBytes (n : Nat) (v : Nat) : List Nat :=
  match n with
  | 0 => []
  | m + 1 => beBytes m (v / 256) ++ [v % 256]

/-- SHA-256 padding: append `0x80`, zeros to 56 mod 64, and the bit length as
eight big-endian bytes. -/
def sha256Pad (msg : List Nat) : List Nat :=
  let len := msg.length
  let zeros := (119 - len % 64) % 64
  msg ++ 0x80 :: List.replicate zeros 0 ++ beBytes 8 (len * 8)

/-- Split a byte list into 64-byte chunks. -/
def chunks64 (l : List Nat) : List (List Nat) :=
  if h : l = [] then []
  else l.take 64 :: chunks64 (l.drop 64)
termination_by l.length
decreasing_by
  simp only [List.length_drop]
  have : 0 < l.length := List.length_pos.mpr h
  omega

/-- SHA-256 of a byte list. -/
def sha256 (msg : List Nat) : List Nat :=
  let final := (chunks64 (sha256Pad msg)).foldl sha256Block sha256Init
  beBytes 4 final.a ++ beBytes 4 final.b ++ beBytes 4 final.c ++
  beBytes 4 final.d ++ beBytes 4 final.e ++ beBytes 4 final.f ++
  beBytes 4 final.g ++ beBytes 4 final.h

/-- RFC 2104 HMAC-SHA256 over byte lists (the construction Go's
`crypto/hmac` applies; block size 64). -/
def hmacSha256Bytes (key msg : List Nat) : List Nat :=
  let key := if key.length > 64 then sha256 key else key
  let key := key ++ List.replicate (64 - key.length) 0
  sha256 ((key.map (· ^^^ 0x5c)) ++ sha256 ((key.map (· ^^^ 0x36)) ++ msg))

/-- `hmacSHA256` (sandbox.go lines 589-593): HMAC of a string's UTF-8 bytes
under a byte key. -/
def hmacSHA256 (key : List Nat) (content : String) : List Nat :=
  hmacSha256Bytes key (utf8Bytes content)

/-- `getSignedKey` (sandbox.go lines 595-601): the four-stage HMAC chain. -/
def getSignedKey (secretKey date region service : String) : List Nat :=
  let kDate := hmacSHA256 (utf8Bytes secretKey) date
  let kRegion := hmacSHA256 kDate region
  let kService := hmacSHA256 kRegion service
  let kSigning := hmacSHA256 kService "request"
  kSigning

/-- Lowercase hex of a byte list (`hex.EncodeToString`). -/
def hexOfBytes (l : List Nat) : String :=
  ⟨l.flatMap fun b =>
    [("0123456789abcdef").data.getD (b / 16) '0',
     ("0123456789abcdef").data.getD (b % 16) '0']⟩

/-- The `service` constant of the agentkit package. -/
def serviceName : String := "agentkit"

/-- `strings.Replace(q, "+", "%20", -1)` on an encoded query string. -/
def replacePlus (q : String) : String :=
  ⟨q.data.flatMap fun c => if c = '+' then ['%', '2', '0'] else [c]⟩

/-- The headers produced by `signRequest`. -/
structure SignedHeaders where
  xDate : String
  xContentSha256 : String
  contentType : String
  authorization : String
deriving Repr, DecidableEq

/-- The fixed signed-header name list of `signRequest`. -/
def signedHeaderNames : List String :=
  ["host", "x-date", "x-content-sha256", "content-type"]

/-- The canonical request string of `signRequest` (sandbox.go lines 519-539),
given the request's timestamp, method, host and already-encoded query.  The
header values read back via `Header.Get` are the values the function set just
before; `strings.TrimSpace` on them is applied as in the code. -/
def canonicalRequest (date method host queryEncoded : String) (body : List Nat) :
    String :=
  let payload := hexOfBytes (sha256 body)
  let queryString := replacePlus queryEncoded
  let headerList := signedHeaderNames.map fun header =>
    if header = "host" then header ++ ":" ++ host
    else
      let v := if header = "x-date" then date
        else if header = "x-content-sha256" then payload
        else "application/json"
      header ++ ":" ++ v.trim
  let headerString := String.intercalate "\n" headerList
  String.intercalate "\n"
    [method, "/", queryString, headerString ++ "\n",
     String.intercalate ";" signedHeaderNames, payload]

/-- The credential scope of `signRequest`: `authDate/region/service/request`
with `authDate = date[:8]`. -/
def credentialScopeOf (date region : String) : String :=
  date.take 8 ++ "/" ++ region ++ "/" ++ serviceName ++ "/request"

/-- The string-to-sign of `signRequest` (sandbox.go lines 543-549). -/
def stringToSignOf (date region canonical : String) : String :=
  String.intercalate "\n"
    ["HMAC-SHA256", date, credentialScopeOf date region,
     hexOfBytes (sha256 (utf8Bytes canonical))]

/-- `signRequest` (sandbox.go lines 509-559), embedded as a pure function.
`time.Now` is I/O: the formatted timestamp `date` is taken as an input, as
are the request's method, host and already-encoded query string (the code
receives these on the `*http.Request` / `url.Values`). -/
def signRequest (s : SandboxToolBackend) (date method host queryEncoded : String)
    (body : List Nat) : SignedHeaders :=
  let authDate := date.take 8
  let payload := hexOfBytes (sha256 body)
  let canonical := canonicalRequest date method host queryEncoded body
  let credentialScope := credentialScopeOf date s.region
  let signStr := stringToSignOf date s.region canonical
  let signedKey := getSignedKey s.secretAccessKey authDate s.region serviceName
  let signature := hexOfBytes (hmacSHA256 signedKey signStr)
  let authorization := "HMAC-SHA256" ++
    " Credential=" ++ s.accessKeyID ++ "/" ++ credentialScope ++
    ", SignedHeaders=" ++ String.intercalate ";" signedHeaderNames ++
    ", Signature=" ++ signature
  { xDate := date
    xContentSha256 := payload
    contentType := "application/json"
    authorization := authorization }

/-- The claim's signing-key formula, written from the spec's words:
`HMAC(HMAC(HMAC(HMAC(secretKey, authDate), region), service), "request")`. -/
def specSigningKey (secretKey authDate region : String) : List Nat :=
  hmacSha256Bytes
    (hmacSha256Bytes
      (hmacSha256Bytes
        (hmacSha256Bytes (utf8Bytes secretKey) (utf8Bytes authDate))
        (utf8Bytes region))
      (utf8Bytes serviceName))
    (utf8Bytes "request")

/-! ## Auxiliary observers used by the theorems -/

/-- Look up a parameter value in a rendered-template parameter map. -/
def lookupParam (k : String) (ps : List (String × PVal)) : Option PVal :=
  (ps.find? fun p => p.1 == k).map fun p => p.2

/-- The byte string a generated script obtains by applying
`base64.b64decode` to a `_b64` parameter of the map (the scripts'
decode-before-use step). -/
def scriptB64Param (k : String) (ps : List (String × PVal)) : Option (List Nat) :=
  match lookupParam k ps with
  | some (.str s) => b64decodeList s.data
  | _ => none

/-- A concrete 1000-line file, as `f.readlines()` yields it: line `i`
(0-indexed) is `"line i"` with its trailing newline. -/
def file1000 : List String :=
  (List.range 1000).map fun i => "line " ++ Nat.repr i ++ "\n"

/-! ## Helper lemmas -/

theorem splitSlash_no_slash : ∀ (l : List Char), ∀ c ∈ splitSlash l, '/' ∉ c := by
  intro l
  induction l with
  | nil => simp [splitSlash]
  | cons ch rest ih =>
    simp only [splitSlash]
    split
    · intro c hc
      rcases List.mem_cons.mp hc with h | h
      · simp [h]
      · exact ih c h
    · rename_i hch
      cases hsp : splitSlash rest with
      | nil => intro c hc; simp at hc; simp [hc]; exact fun h => hch h.symm
      | cons hd tl =>
        intro c hc
        rcases List.mem_cons.mp hc with h | h
        · subst h
          intro hmem
          rcases List.mem_cons.mp hmem with h | h
          · exact hch h.symm
          · exact ih hd (hsp ▸ List.mem_cons_self hd tl) h
        · exact ih c (hsp ▸ List.mem_cons_of_mem hd h)

theorem cleanStep_good (rooted : Bool) (st : List (List Char)) (comp : List Char)
    (hst : ∀ c ∈ st, c ≠ [] ∧ '/' ∉ c) (hcomp : '/' ∉ comp) :
    ∀ c ∈ cleanStep rooted st comp, c ≠ [] ∧ '/' ∉ c := by
  unfold cleanStep
  split_ifs with h1 h2 h3 h4
  · exact hst
  · exact fun c hc => hst c (List.dropLast_subset st hc)
  · exact fun c hc => hst c (List.dropLast_subset st hc)
  · intro c hc
    rcases List.mem_append.mp hc with h | h
    · exact hst c h
    · simp at h; subst h; subst h2; simp
  · intro c hc
    rcases List.mem_append.mp hc with h | h
    · exact hst c h
    · simp at h; subst h
      refine ⟨fun hnil => h1 (Or.inl hnil), hcomp⟩

theorem foldl_cleanStep_good (rooted : Bool) (comps : List (List Char))
    (hcomps : ∀ c ∈ comps, '/' ∉ c) :
    ∀ (init : List (List Char)), (∀ c ∈ init, c ≠ [] ∧ '/' ∉ c) →
      ∀ c ∈ comps.foldl (cleanStep rooted) init, c ≠ [] ∧ '/' ∉ c := by
  induction comps with
  | nil => intro init hinit; simpa using hinit
  | cons comp t ih =>
    intro init hinit
    simp only [List.foldl_cons]
    exact ih (fun c hc => hcomps c (List.mem_cons_of_mem comp hc)) _
      (cleanStep_good rooted init comp hinit (hcomps comp (List.mem_cons_self comp t)))

theorem joinSlash_head (c : List Char) (rest : List (List Char)) (hc : c ≠ []) :
    (joinSlash (c :: rest)).head? = c.head? := by
  cases rest with
  | nil => rfl
  | cons r t =>
    show (c ++ '/' :: joinSlash (r :: t)).head? = c.head?
    exact List.head?_append_of_ne_nil c hc

theorem cleanChars_not_abs (l : List Char) (h : ¬l.head? = some '/') :
    ¬(cleanChars l).head? = some '/' := by
  unfold cleanChars
  by_cases hl : l = []
  · simp [hl]
  · simp only [if_neg hl]
    have hrooted : (l.head? = some '/' : Bool) = false := by
      simpa using h
    rw [hrooted]
    simp only [Bool.false_eq_true, if_false]
    have hgood := foldl_cleanStep_good false (splitSlash l) (splitSlash_no_slash l)
      [] (by simp)
    set stack := (splitSlash l).foldl (cleanStep false) [] with hstack
    cases hs : stack with
    | nil => simp
    | cons c rest =>
      simp only [if_neg (by simp : ¬(c :: rest : List (List Char)) = [])]
      have hcgood := hgood c (hs ▸ List.mem_cons_self c rest)
      rw [joinSlash_head c rest hcgood.1]
      cases c with
      | nil => exact absurd rfl hcgood.1
      | cons ch c' =>
        have : ch ≠ '/' := fun hch => hcgood.2 (hch ▸ List.mem_cons_self ch c')
        simpa using fun hcontra => this hcontra

theorem filepathClean_not_abs (p : String) (h : filepathIsAbs p = false) :
    filepathIsAbs (filepathClean p) = false := by
  unfold filepathIsAbs filepathClean at *
  simp only [decide_eq_false_iff_not] at h ⊢
  exact cleanChars_not_abs p.data h

/-- For a non-absolute path, `formatPath` with no default and `requireAbs`
returns the absolute-path error. -/
theorem formatPath_relative (p : String) (h : filepathIsAbs p = false) :
    formatPath p "" true =
      .error ("path must be an absolute path: " ++ filepathClean p) := by
  have habs := filepathClean_not_abs p h
  simp [formatPath, habs]

theorem b64Val_b64Char : ∀ n < 64, b64Val (b64Char n) = some n := by decide

theorem b64Char_ne_pad : ∀ n < 64, b64Char n ≠ '=' := by decide

/-- Induction along base64's three-byte grouping. -/
theorem chunk3Induction {P : List Nat → Prop} (h0 : P []) (h1 : ∀ a, P [a])
    (h2 : ∀ a b, P [a, b])
    (h3 : ∀ a b c rest, P rest → P (a :: b :: c :: rest)) :
    ∀ l, P l
  | [] => h0
  | [a] => h1 a
  | [a, b] => h2 a b
  | a :: b :: c :: rest =>
    h3 a b c rest (chunk3Induction h0 h1 h2 h3 rest)

/-- Base64 decode inverts base64 encode on byte lists. -/
theorem b64decode_encode (l : List Nat) (hl : ∀ b ∈ l, b < 256) :
    b64decodeList (b64encodeBytes l) = some l := by
  induction l using chunk3Induction with
  | h0 => rfl
  | h1 a =>
    have ha : a < 256 := hl a (by simp)
    simp only [b64encodeBytes, b64decodeList]
    rw [b64Val_b64Char (a / 4) (by omega), b64Val_b64Char (a % 4 * 16) (by omega)]
    simp only [if_pos rfl, and_self, if_pos, Option.some.injEq, List.cons.injEq,
      and_true]
    omega
  | h2 a b =>
    have ha : a < 256 := hl a (by simp)
    have hb : b < 256 := hl b (by simp)
    simp only [b64encodeBytes, b64decodeList]
    rw [b64Val_b64Char (a / 4) (by omega),
      b64Val_b64Char (a % 4 * 16 + b / 16) (by omega)]
    dsimp only
    rw [if_neg (b64Char_ne_pad (b % 16 * 4) (by omega))]
    rw [b64Val_b64Char (b % 16 * 4) (by omega)]
    simp only [if_true, Option.some.injEq, List.cons.injEq, and_true]
    constructor <;> omega
  | h3 a b c rest ih =>
    have ha : a < 256 := hl a (by simp)
    have hb : b < 256 := hl b (by simp)
    have hc : c < 256 := hl c (by simp)
    have hrest : ∀ x ∈ rest, x < 256 := fun x hx => hl x (by simp [hx])
    simp only [b64encodeBytes, b64decodeList]
    rw [b64Val_b64Char (a / 4) (by omega),
      b64Val_b64Char (a % 4 * 16 + b / 16) (by omega)]
    dsimp only
    rw [if_neg (b64Char_ne_pad (b % 16 * 4 + c / 64) (by omega))]
    rw [b64Val_b64Char (b % 16 * 4 + c / 64) (by omega)]
    dsimp only
    rw [if_neg (b64Char_ne_pad (c % 64) (by omega))]
    rw [b64Val_b64Char (c % 64) (by omega), ih hrest]
    dsimp only
    simp only [List.cons_append, List.nil_append, Option.some.injEq, List.cons.injEq]
    exact ⟨by omega, by omega, by omega, trivial⟩

theorem utf8EncodeChar_lt (ch : Char) : ∀ b ∈ utf8EncodeChar ch, b < 256 := by
  have hv : ch.toNat < 1114112 := by
    have h := ch.valid
    rcases h with h | ⟨_, h2⟩
    · exact Nat.lt_trans h (by norm_num)
    · exact h2
  intro b hb
  simp only [utf8EncodeChar] at hb
  split_ifs at hb with h1 h2 h3 <;> simp at hb <;> omega

theorem utf8Bytes_lt (s : String) : ∀ b ∈ utf8Bytes s, b < 256 := by
  intro b hb
  simp only [utf8Bytes, List.mem_flatMap] at hb
  obtain ⟨c, _, hc⟩ := hb
  exact utf8EncodeChar_lt c b hc

/-- Base64 decode inverts base64 encode on a Go string's UTF-8 bytes. -/
theorem b64decode_b64encode (s : String) :
    b64decodeList (b64encode s).data = some (utf8Bytes s) :=
  b64decode_encode (utf8Bytes s) (utf8Bytes_lt s)

theorem foldl_collect {α : Type} (parse : String → Option α) :
    ∀ (ls : List String) (acc : List α),
      ls.foldl (fun a line =>
        match parse line with
        | none => a
        | some v => a ++ [v]) acc = acc ++ ls.filterMap parse := by
  intro ls
  induction ls with
  | nil => simp
  | cons l t ih =>
    intro acc
    simp only [List.foldl_cons, List.filterMap_cons]
    cases hp : parse l <;> simp [hp, ih]

theorem foldl_collect_pair {α : Type} (parse : String → Option α) :
    ∀ (ls : List String) (acc : List α × List String),
      ls.foldl (fun a line =>
        match parse line with
        | none => (a.1, a.2 ++ [line])
        | some v => (a.1 ++ [v], a.2)) acc =
      (acc.1 ++ ls.filterMap parse,
       acc.2 ++ ls.filter fun l => (parse l).isNone) := by
  intro ls
  induction ls with
  | nil => simp
  | cons l t ih =>
    intro acc
    simp only [List.foldl_cons, List.filterMap_cons, List.filter_cons]
    cases hp : parse l <;> simp [hp, ih]

/-! ## Claim theorems -/

set_option maxRecDepth 16384

/-- C1: for every successfully decoded response envelope, `execute` returns a
non-nil exit code that is exactly 0 when the inner result's success flag is
true (with text equal to the first output's text, or empty when there are no
outputs) and exactly -1 when the flag is false (with text the first output's
text if non-empty, else the composite "ename: evalue" when ename is
non-empty); a nil exit code arises only when transport or decode failed
before the envelope was interpreted. -/
theorem execute_exit_code_spec :
    (∀ ret : ResultEnvelope, interpretResult ret = specInterpretResult ret) ∧
    (∀ ret : ResultEnvelope,
      ((interpretResult ret).2 = 0 ↔ ret.success = true) ∧
      ((interpretResult ret).2 = -1 ↔ ret.success = false)) ∧
    (∀ d : Except String ResultEnvelope, (executeFromDecoded d).isOk = d.isOk) := by
  refine ⟨?_, ?_, ?_⟩
  · rintro ⟨⟨outs⟩, succ⟩
    cases succ <;> cases outs <;> simp [interpretResult, specInterpretResult]
  · rintro ⟨⟨outs⟩, succ⟩
    cases succ <;> cases outs <;> simp [interpretResult]
  · intro d
    cases d <;> simp [executeFromDecoded, Except.isOk, Except.toBool]

/-- C3 counterexample: a configuration with valid credentials and BOTH
`SessionID` and `UserSessionID` non-empty is accepted by
`NewSandboxToolBackend`, while the claim states it is rejected. -/
theorem newSandbox_both_ids_accepted :
    (NewSandboxToolBackend
      { AccessKeyID := "ak", SecretAccessKey := "sk", Region := "",
        ToolID := "tool", SessionID := "sid", UserSessionID := "usid",
        SessionTTL := 0, ExecutionTimeout := 0 }).isOk = true := by
  rfl

/-- C3 (amended): `NewSandboxToolBackend` fails on empty `AccessKeyID`,
`SecretAccessKey` or `ToolID`, and succeeds exactly when, in addition, AT
LEAST one of `SessionID` and `UserSessionID` is non-empty and the region is
empty (defaulted) or one of the two known regions: both session identifiers
empty is rejected, but both non-empty is accepted. -/
theorem newSandbox_validation :
    ∀ c : Config, (NewSandboxToolBackend c).isOk = true ↔
      (c.AccessKeyID ≠ "" ∧ c.SecretAccessKey ≠ "" ∧ c.ToolID ≠ "" ∧
       ¬(c.SessionID = "" ∧ c.UserSessionID = "") ∧
       (c.Region = "" ∨ c.Region = RegionOfBeijing ∨
        c.Region = RegionOfShangHai)) := by
  intro c
  by_cases h1 : c.AccessKeyID = "" <;>
    by_cases h2 : c.SecretAccessKey = "" <;>
      by_cases h3 : c.ToolID = "" <;>
        by_cases h4a : c.SessionID = "" <;>
          by_cases h4b : c.UserSessionID = "" <;>
          by_cases h5 : c.Region = "" <;>
            by_cases h6 : c.Region = RegionOfBeijing <;>
              by_cases h7 : c.Region = RegionOfShangHai <;>
                simp_all [NewSandboxToolBackend, Except.isOk, Except.toBool,
                  RegionOfBeijing, RegionOfShangHai]

/-- C5: the marshalled `OperationPayload` object carries a `timeout` key iff
`executionTimeout > 0`, and the outer `invokeToolRequest` carries a non-nil
`Ttl` iff `sessionTTL > 0` (in which case it is the session TTL); otherwise
the key is absent and the pointer nil. -/
theorem execute_optional_fields :
    ∀ (s : SandboxToolBackend) (payload : String),
      ("timeout" ∈ operationPayloadKeys s.executionTimeout ↔
        s.executionTimeout > 0) ∧
      ((buildInvokeToolRequest s payload).Ttl ≠ none ↔ s.sessionTTL > 0) ∧
      ((buildInvokeToolRequest s payload).Ttl = none ∨
        (buildInvokeToolRequest s payload).Ttl = some s.sessionTTL) := by
  intro s payload
  unfold operationPayloadKeys buildInvokeToolRequest
  by_cases h1 : s.executionTimeout ≤ 0 <;> by_cases h2 : s.sessionTTL > 0 <;>
    simp [h1, h2] <;> omega

/-- C10 counterexample: `Read` called with a relative path and `Offset = -1`
returns with the caller's request unchanged — the offset is still -1, not
the claimed overwritten 0. -/
theorem read_unmutated_on_relative_path :
    (readPrepare { FilePath := "notes.txt", Offset := -1, Limit := 0 }).2.Offset
      = -1 ∧ (-1 : Int) ≠ 0 := by
  exact ⟨rfl, by decide⟩

/-- C10 (amended): `Read` mutates the caller's request in place exactly when
path validation succeeds: then an `Offset <= 0` is overwritten with 0 and a
`Limit <= 0` with 200 (`FilePath` unchanged); when path validation fails the
request is returned unchanged. -/
theorem read_mutation_characterization :
    ∀ req : ReadRequest,
      (readPrepare req).2 =
        if (formatPath req.FilePath "" true).isOk then
          { req with
            Offset := if req.Offset ≤ 0 then 0 else req.Offset,
            Limit := if req.Limit ≤ 0 then 200 else req.Limit }
        else req := by
  intro req
  obtain ⟨fp, off, lim⟩ := req
  unfold readPrepare
  cases hfp : formatPath fp "" true with
  | error e => simp [Except.isOk, Except.toBool]
  | ok path =>
    by_cases h1 : off ≤ 0 <;> by_cases h2 : lim ≤ 0 <;>
      simp [h1, h2, Except.isOk, Except.toBool]

/-- C2 counterexample: `GrepRaw` does NOT base64-encode its search pattern —
the `pattern` parameter substituted into the grep script template is the raw
pattern, which differs from its base64 encoding. -/
theorem grep_pattern_raw :
    lookupParam "pattern" (grepPrepare ⟨"x", "/tmp", ""⟩) = some (.str "x") ∧
    b64encode "x" = "eA==" ∧
    ("x" : String) ≠ "eA==" := by
  exact ⟨rfl, rfl, by decide⟩

/-- C2 (amended): the file content of Write, the old/new strings of Edit, the
command of Execute (and the path/pattern of GlobInfo) are base64-encoded by
the Go caller before substitution and decoded back to the original bytes by
the script's `base64.b64decode`; GrepRaw's pattern, by contrast, is
substituted raw. -/
theorem base64_param_encoding :
    (∀ req ps, writePrepare req = .ok ps →
      lookupParam "content_b64" ps = some (.str (b64encode req.Content)) ∧
      scriptB64Param "content_b64" ps = some (utf8Bytes req.Content)) ∧
    (∀ req ps, editPrepare req = .ok ps →
      lookupParam "old_b64" ps = some (.str (b64encode req.OldString)) ∧
      lookupParam "new_b64" ps = some (.str (b64encode req.NewString)) ∧
      scriptB64Param "old_b64" ps = some (utf8Bytes req.OldString) ∧
      scriptB64Param "new_b64" ps = some (utf8Bytes req.NewString)) ∧
    (∀ req ps, executePrepare req = .ok ps →
      lookupParam "command_b64" ps = some (.str (b64encode req.Command)) ∧
      scriptB64Param "command_b64" ps = some (utf8Bytes req.Command)) ∧
    (∀ req : GlobInfoRequest,
      lookupParam "pattern_b64" (globInfoPrepare req) =
        some (.str (b64encode req.Pattern)) ∧
      scriptB64Param "pattern_b64" (globInfoPrepare req) =
        some (utf8Bytes req.Pattern)) ∧
    (∀ req : GrepRequest,
      lookupParam "pattern" (grepPrepare req) = some (.str req.Pattern)) := by
  refine ⟨?_, ?_, ?_, ?_, ?_⟩
  · intro req ps hok
    unfold writePrepare at hok
    cases hfp : formatPath req.FilePath "" true with
    | error e => rw [hfp] at hok; exact absurd hok (by simp [Except.map])
    | ok path =>
      rw [hfp] at hok
      simp only [Except.map, Except.ok.injEq] at hok
      subst hok
      exact ⟨rfl, by simp [scriptB64Param, lookupParam, List.find?,
        b64decode_b64encode]⟩
  · intro req ps hok
    unfold editPrepare at hok
    cases hfp : formatPath req.FilePath "" true with
    | error e => rw [hfp] at hok; exact absurd hok (by simp)
    | ok path =>
      rw [hfp] at hok
      dsimp only at hok
      split_ifs at hok with h1 h2 h3 <;>
        first
          | (simp only [Except.ok.injEq] at hok
             subst hok
             refine ⟨rfl, rfl, ?_, ?_⟩ <;>
               simp [scriptB64Param, lookupParam, List.find?, b64decode_b64encode])
          | exact absurd hok (by simp)
  · intro req ps hok
    unfold executePrepare at hok
    split_ifs at hok with h1
    simp only [Except.ok.injEq] at hok
    subst hok
    exact ⟨rfl, by simp [scriptB64Param, lookupParam, List.find?,
      b64decode_b64encode]⟩
  · intro req
    exact ⟨rfl, by simp [scriptB64Param, lookupParam, List.find?, globInfoPrepare,
      b64decode_b64encode]⟩
  · intro req
    rfl

/-- C2 witness: the amended theorem applied to a concrete Write request. -/
theorem base64_param_encoding_witness :
    writePrepare ⟨"/d/f.txt", "hi"⟩ =
      .ok [("file_path", .str (filepathClean "/d/f.txt")),
           ("content_b64", .str (b64encode "hi"))] ∧
    (lookupParam "content_b64"
        [("file_path", .str (filepathClean "/d/f.txt")),
         ("content_b64", .str (b64encode "hi"))] =
      some (.str (b64encode "hi")) ∧
     scriptB64Param "content_b64"
        [("file_path", .str (filepathClean "/d/f.txt")),
         ("content_b64", .str (b64encode "hi"))] =
      some (utf8Bytes "hi")) :=
  ⟨rfl, base64_param_encoding.1 ⟨"/d/f.txt", "hi"⟩ _ rfl⟩

/-- C4: the signing key is the four-stage HMAC-SHA256 chain over secret key,
authDate (the first 8 characters of the X-Date timestamp), region, service
and "request", and the Authorization header is exactly the
`HMAC-SHA256 Credential=.../scope, SignedHeaders=..., Signature=hex-HMAC`
concatenation under that key. -/
theorem signing_key_and_authorization :
    ∀ (s : SandboxToolBackend) (date method host queryEncoded : String)
      (body : List Nat),
      getSignedKey s.secretAccessKey (date.take 8) s.region serviceName =
        specSigningKey s.secretAccessKey (date.take 8) s.region ∧
      (signRequest s date method host queryEncoded body).authorization =
        "HMAC-SHA256 Credential=" ++ s.accessKeyID ++ "/" ++
          credentialScopeOf date s.region ++
        ", SignedHeaders=" ++ "host;x-date;x-content-sha256;content-type" ++
        ", Signature=" ++
        hexOfBytes (hmacSha256Bytes
          (specSigningKey s.secretAccessKey (date.take 8) s.region)
          (utf8Bytes (stringToSignOf date s.region
            (canonicalRequest date method host queryEncoded body)))) := by
  intro s date method host queryEncoded body
  exact ⟨rfl, rfl⟩

/-- C6: Read, Write and Edit reject any non-absolute path before any remote
call with an error mentioning "absolute path", while LsInfo and GlobInfo
substitute the default path "/" for an empty path and pass validation. -/
theorem path_requirement :
    (∀ (p content old new : String) (off lim : Int) (ra : Bool),
      filepathIsAbs p = false →
        (readPrepare ⟨p, off, lim⟩).1 =
          .error ("path must be an absolute path: " ++ filepathClean p) ∧
        writePrepare ⟨p, content⟩ =
          .error ("path must be an absolute path: " ++ filepathClean p) ∧
        editPrepare ⟨p, old, new, ra⟩ =
          .error ("path must be an absolute path: " ++ filepathClean p) ∧
        ∃ pre post, ("path must be an absolute path: " ++ filepathClean p) =
          pre ++ "absolute path" ++ post) ∧
    lsInfoPrepare ⟨""⟩ = .ok [("path", .str "/")] ∧
    (∀ pat, globInfoPrepare ⟨"", pat⟩ = globInfoPrepare ⟨"/", pat⟩) ∧
    formatPath "" "/" true = .ok "/" ∧
    formatPath "" "/" false = .ok "/" := by
  refine ⟨?_, rfl, fun pat => rfl, rfl, rfl⟩
  intro p content old new off lim ra h
  have hfp := formatPath_relative p h
  refine ⟨?_, ?_, ?_, "path must be an ", ": " ++ filepathClean p, ?_⟩
  · unfold readPrepare; rw [hfp]
  · unfold writePrepare; rw [hfp]; rfl
  · unfold editPrepare; rw [hfp]
  · rw [← String.append_assoc]
    rfl

/-- C6 witness: the path theorem applied to the concrete relative path
"notes/a.txt". -/
theorem path_requirement_witness :
    filepathIsAbs "notes/a.txt" = false ∧
    ((readPrepare ⟨"notes/a.txt", 3, 4⟩).1 =
      .error ("path must be an absolute path: " ++ filepathClean "notes/a.txt") ∧
     writePrepare ⟨"notes/a.txt", "c"⟩ =
      .error ("path must be an absolute path: " ++ filepathClean "notes/a.txt") ∧
     editPrepare ⟨"notes/a.txt", "o", "n", false⟩ =
      .error ("path must be an absolute path: " ++ filepathClean "notes/a.txt") ∧
     ∃ pre post,
       ("path must be an absolute path: " ++ filepathClean "notes/a.txt") =
         pre ++ "absolute path" ++ post) :=
  ⟨rfl, path_requirement.1 "notes/a.txt" "c" "o" "n" 3 4 false rfl⟩

/-- C7: Edit returns an error before any remote call whenever `OldString` is
empty or equals `NewString`, and a script is rendered (the `.ok` parameter
map produced) only when both local checks pass. -/
theorem edit_local_checks :
    (∀ req : EditRequest,
      (req.OldString = "" ∨ req.OldString = req.NewString) →
        ∃ e, editPrepare req = .error e) ∧
    (∀ req ps, editPrepare req = .ok ps →
      req.OldString ≠ "" ∧ req.OldString ≠ req.NewString) := by
  constructor
  · intro req h
    unfold editPrepare
    cases hfp : formatPath req.FilePath "" true with
    | error e => exact ⟨e, rfl⟩
    | ok path =>
      by_cases h1 : req.OldString = ""
      · refine ⟨"old string is required", ?_⟩
        dsimp only
        rw [if_pos h1]
      · have h2 : req.OldString = req.NewString := h.resolve_left h1
        refine ⟨"new string must be different from old string", ?_⟩
        dsimp only
        rw [if_neg h1, if_pos h2]
  · intro req ps hok
    unfold editPrepare at hok
    cases hfp : formatPath req.FilePath "" true with
    | error e => rw [hfp] at hok; exact absurd hok (by simp)
    | ok path =>
      rw [hfp] at hok
      dsimp only at hok
      split_ifs at hok with h1 h2 h3 <;>
        first
          | exact ⟨h1, h2⟩
          | exact absurd hok (by simp)

/-- C7 witness: the Edit validation theorem applied to concrete requests. -/
theorem edit_local_checks_witness :
    ((⟨"/a.txt", "", "x", false⟩ : EditRequest).OldString = "" ∨
      (⟨"/a.txt", "", "x", false⟩ : EditRequest).OldString =
        (⟨"/a.txt", "", "x", false⟩ : EditRequest).NewString) ∧
    (∃ e, editPrepare ⟨"/a.txt", "", "x", false⟩ = .error e) ∧
    ((⟨"/a.txt", "old", "new", false⟩ : EditRequest).OldString ≠ "" ∧
     (⟨"/a.txt", "old", "new", false⟩ : EditRequest).OldString ≠
       (⟨"/a.txt", "old", "new", false⟩ : EditRequest).NewString) :=
  ⟨Or.inl rfl,
   edit_local_checks.1 ⟨"/a.txt", "", "x", false⟩ (Or.inl rfl),
   edit_local_checks.2 ⟨"/a.txt", "old", "new", false⟩ _ rfl⟩

/-- C8: Read clamps `Offset <= 0` to 0 and `Limit <= 0` to 200 before
rendering the script parameters, and the read script returns the lines
sliced as `[offset : offset+limit]`, each labeled with its 1-indexed line
number `offset + i + 1`; concretely, offset 500 and limit 5 on a 1000-line
file yield lines 501-505 numbered 501..505. -/
theorem read_clamp_and_pagination :
    (∀ req ps req', readPrepare req = (.ok ps, req') →
      req'.Offset = (if req.Offset ≤ 0 then 0 else req.Offset) ∧
      req'.Limit = (if req.Limit ≤ 0 then 200 else req.Limit) ∧
      ps = [("file_path", .str (filepathClean req.FilePath)),
            ("offset", .int req'.Offset), ("limit", .int req'.Limit)]) ∧
    (∀ (lines : List String) (offset limit i : Nat),
      (readScriptLines lines offset limit).get? i =
        (((lines.drop offset).take limit).get? i).map
          fun s => (offset + i + 1, rstripNewline s)) ∧
    readScriptLines file1000 500 5 =
      [(501, "line 500"), (502, "line 501"), (503, "line 502"),
       (504, "line 503"), (505, "line 504")] := by
  refine ⟨?_, ?_, ?_⟩
  · intro req ps req' hok
    obtain ⟨fp, off, lim⟩ := req
    unfold readPrepare at hok
    cases hfp : formatPath fp "" true with
    | error e => rw [hfp] at hok; exact absurd hok (by simp)
    | ok path =>
      have hpath : path = filepathClean fp := by
        simp only [formatPath, ne_eq, not_true_eq_false, and_false, if_false] at hfp
        split_ifs at hfp with habs
        all_goals
          first
            | (simp only [Except.ok.injEq] at hfp; exact hfp.symm)
            | (exfalso; simp at hfp)
      rw [hfp] at hok
      dsimp only at hok
      rw [Prod.mk.injEq] at hok
      obtain ⟨hps, hreq⟩ := hok
      simp only [Except.ok.injEq] at hps
      subst hreq
      subst hps
      by_cases h1 : off ≤ 0 <;> by_cases h2 : lim ≤ 0 <;>
        simp [h1, h2, hpath]
  · intro lines offset limit i
    simp only [readScriptLines, List.get?_map, List.enum_get?]
    cases h : ((lines.drop offset).take limit).get? i with
    | none => simp
    | some s => simp
  · rfl

/-- C8 witness: the clamp theorem applied to a concrete Read request with
negative offset and zero limit. -/
theorem read_clamp_and_pagination_witness :
    (⟨"/data/f.txt", 0, 200⟩ : ReadRequest).Offset =
      (if (-7 : Int) ≤ 0 then 0 else (-7 : Int)) ∧
    (⟨"/data/f.txt", 0, 200⟩ : ReadRequest).Limit =
      (if (0 : Int) ≤ 0 then 200 else (0 : Int)) ∧
    ([("file_path", PVal.str (filepathClean "/data/f.txt")),
      ("offset", PVal.int 0), ("limit", PVal.int 200)] : List (String × PVal)) =
      [("file_path", .str (filepathClean "/data/f.txt")),
       ("offset", .int (⟨"/data/f.txt", 0, 200⟩ : ReadRequest).Offset),
       ("limit", .int (⟨"/data/f.txt", 0, 200⟩ : ReadRequest).Limit)] :=
  read_clamp_and_pagination.1 ⟨"/data/f.txt", -7, 0⟩ _ _ rfl

/-- C9: the line-decoding loops skip lines the per-line decoder rejects —
silently for LsInfo/GlobInfo, collecting (logging) each rejected line for
GrepRaw — and return exactly the successfully decoded records in order; no
malformed line produces an error. -/
theorem decode_loops_skip_malformed :
    ∀ {α : Type} (parse : String → Option α) (output : String),
      decodeJsonLines parse output =
        (if output = "" then []
         else (splitOutputLines output).filterMap parse) ∧
      (grepDecodeLines parse output).1 =
        (if output = "" then []
         else (splitOutputLines output).filterMap parse) ∧
      (grepDecodeLines parse output).2 =
        (if output = "" then []
         else (splitOutputLines output).filter fun l => (parse l).isNone) := by
  intro α parse output
  by_cases h : output = "" <;>
    simp [decodeJsonLines, grepDecodeLines, h, foldl_collect, foldl_collect_pair]

end Agentkit
